import Mathlib

/-!
Shallow embedding of the behavior-network engine in
`cogbox/behavior/behavior_network.py` (a spreading-activation action-selection
network after Maes 1989).

Modelling conventions:
* item identifiers (strings in the source) are modelled as `ℕ`;
* Python `set`/`frozenset` becomes `Finset ℕ`;
* Python floats become `ℚ` (the claims under study are about exact control
  flow and rational arithmetic identities, all of which the source expresses
  with exact decimal constants);
* a behavior's `action` object is an opaque identifier; the side effect of
  invoking `action.execute()` is made explicit: `Network.run` returns, next to
  the updated network, the list of behavior indices whose action was invoked;
* mutation is state passing: every method returns the updated structure;
* Python object identity (the `behavior != target` test in `behavior_spread`,
  and the behavior object returned by `active_behavior`) is modelled by the
  behavior's index in the network's list.
-/

namespace Cogbox

/-- One behavior of the network: mirrors class `Behavior` in
`behavior_network.py` (label, action, precondition/addition/deletion sets,
the two activation levels and the executability flag). -/
structure Behavior where
  label : ℕ
  action : ℕ
  preconditions : Finset ℕ
  additions : Finset ℕ
  deletions : Finset ℕ
  previous_activation : ℚ
  current_activation : ℚ
  executable : Bool
  deriving DecidableEq

instance : Inhabited Behavior := ⟨⟨0, 0, ∅, ∅, ∅, 0, 0, false⟩⟩

/-- `Behavior.__init__`: fresh behavior with both activations `0.0` and
`executable = False`. -/
def Behavior.init (label action : ℕ) (preconditions additions deletions : Finset ℕ) :
    Behavior :=
  ⟨label, action, preconditions, additions, deletions, 0, 0, false⟩

/-- `Behavior.execute`: resets the current activation level to `0`.  The
source also asserts `executable is True` and invokes `self.action.execute()`;
the assertion appears as a hypothesis of the theorems below and the action
invocation is recorded by `Network.run`. -/
def Behavior.execute (b : Behavior) : Behavior :=
  { b with current_activation := 0 }

/-- Energy levels used through the network: mirrors class `Energy`
(defaults 20, 70, 50, 20). -/
structure Energy where
  data : ℚ
  goals : ℚ
  conf : ℚ
  mean : ℚ
  deriving DecidableEq

/-- The default `Energy()` of the source: `Energy(20., 70., 50., 20.)`. -/
def Energy.default : Energy := ⟨20, 70, 50, 20⟩

/-- State of the world: mirrors class `State`. -/
structure State where
  data : Finset ℕ
  goals : Finset ℕ
  protected_goals : Finset ℕ
  deriving DecidableEq

/-- The behavior network: mirrors class `Network` (`behaviors`, `threshold`,
`max_threshold`, `energy`). -/
structure Network where
  behaviors : List Behavior
  threshold : ℚ
  max_threshold : ℚ
  energy : Energy
  deriving DecidableEq

/-- `Network.__init__(behaviors, energy, max_threshold)`: sets
`threshold = max_threshold`. -/
def Network.init (behaviors : List Behavior) (energy : Energy) (max_threshold : ℚ) :
    Network :=
  ⟨behaviors, max_threshold, max_threshold, energy⟩

/-- `Network.behaviors_that_need(item)`: behaviors with `item` in their
preconditions. -/
def Network.behaviors_that_need (net : Network) (item : ℕ) : List Behavior :=
  net.behaviors.filter (fun b => decide (item ∈ b.preconditions))

/-- `Network.behaviors_that_add(item)`: behaviors with `item` in their
additions. -/
def Network.behaviors_that_add (net : Network) (item : ℕ) : List Behavior :=
  net.behaviors.filter (fun b => decide (item ∈ b.additions))

/-- `Network.behaviors_that_delete(item)`: behaviors with `item` in their
deletions. -/
def Network.behaviors_that_delete (net : Network) (item : ℕ) : List Behavior :=
  net.behaviors.filter (fun b => decide (item ∈ b.deletions))

/-- `Network.mean_activation()`: arithmetic mean of `current_activation`. -/
def Network.mean_activation (net : Network) : ℚ :=
  (net.behaviors.map (fun b => b.current_activation)).sum / (net.behaviors.length : ℚ)

/-- `Network.input_from_data(behavior, state)`. -/
def Network.input_from_data (net : Network) (behavior : Behavior) (s : State) : ℚ :=
  net.energy.data *
    ∑ item ∈ (s.data ∪ s.protected_goals) ∩ behavior.preconditions,
      (1 / ((net.behaviors_that_need item).length : ℚ)) *
        (1 / (behavior.preconditions.card : ℚ))

/-- `Network.input_from_goals(behavior, state)`. -/
def Network.input_from_goals (net : Network) (behavior : Behavior) (s : State) : ℚ :=
  net.energy.goals *
    ∑ item ∈ s.goals ∩ behavior.additions,
      (1 / ((net.behaviors_that_add item).length : ℚ)) *
        (1 / (behavior.additions.card : ℚ))

/-- `Network.taken_by_protected_goals(behavior, state)`. -/
def Network.taken_by_protected_goals (net : Network) (behavior : Behavior) (s : State) : ℚ :=
  net.energy.conf *
    ∑ item ∈ s.protected_goals ∩ behavior.deletions,
      (1 / ((net.behaviors_that_delete item).length : ℚ)) *
        (1 / (behavior.deletions.card : ℚ))

/-- `Network.spread_backwards(source, destination, state)`: `0.0` when the
source is executable, otherwise the backward-spread sum. -/
def Network.spread_backwards (net : Network) (source destination : Behavior) (s : State) : ℚ :=
  if source.executable then 0
  else
    source.previous_activation *
      ∑ item ∈ (source.preconditions ∩ destination.additions) \ s.data,
        (1 / ((net.behaviors_that_add item).length : ℚ)) *
          (1 / (destination.additions.card : ℚ))

/-- `Network.spread_forward(source, destination, state)`: `0.0` when the
source is executable, otherwise the forward-spread sum scaled by
`energy.data / energy.goals`. -/
def Network.spread_forward (net : Network) (source destination : Behavior) (s : State) : ℚ :=
  if source.executable then 0
  else
    source.previous_activation * (net.energy.data / net.energy.goals) *
      ∑ item ∈ (source.additions ∩ destination.preconditions) \ s.data,
        (1 / ((net.behaviors_that_need item).length : ℚ)) *
          (1 / (destination.preconditions.card : ℚ))

/-- `Network.take_away(taker, source, state)`: `0.0` when the taker is weaker
and the disputed item is live, otherwise the conflictor sum scaled by
`energy.conf / energy.goals`.  Note the source performs no `executable`
check here. -/
def Network.take_away (net : Network) (taker source : Behavior) (s : State) : ℚ :=
  if taker.previous_activation < source.previous_activation ∧
      0 < (s.data ∩ source.preconditions ∩ taker.deletions).card then 0
  else
    taker.previous_activation * (net.energy.conf / net.energy.goals) *
      ∑ item ∈ taker.preconditions ∩ source.deletions ∩ s.data,
        (1 / ((net.behaviors_that_delete item).length : ℚ)) *
          (1 / (source.deletions.card : ℚ))

/-- `Network.behavior_spread(target, state)` where the target is the behavior
at index `i` of the list: sum over all other behaviors (Python's
`behavior != target` is object identity, modelled as index inequality). -/
def Network.behavior_spread_at (net : Network) (i : ℕ) (s : State) : ℚ :=
  ∑ j ∈ (Finset.range net.behaviors.length).erase i,
    (net.spread_backwards (net.behaviors.getD j default) (net.behaviors.getD i default) s +
      net.spread_forward (net.behaviors.getD j default) (net.behaviors.getD i default) s -
      net.take_away (net.behaviors.getD j default) (net.behaviors.getD i default) s)

/-- The activation value the `update_behaviors` loop body assigns to the
behavior at index `i`:
`max(0.9*previous + input_from_data + input_from_goals - taken + spread, 0)`. -/
def Network.new_activation (net : Network) (i : ℕ) (s : State) : ℚ :=
  max ((9 / 10) * (net.behaviors.getD i default).previous_activation +
        net.input_from_data (net.behaviors.getD i default) s +
        net.input_from_goals (net.behaviors.getD i default) s -
        net.taken_by_protected_goals (net.behaviors.getD i default) s +
        net.behavior_spread_at i s)
    0

/-- One iteration of the `update_behaviors` loop at index `i`: first the
`executable` flag of behavior `i` is written, then its `current_activation`
is recomputed against the partially updated list. -/
def Network.updateOne (net : Network) (s : State) (i : ℕ) : Network :=
  let b := net.behaviors.getD i default
  let b1 : Behavior :=
    { b with executable := decide (b.preconditions ⊆ s.data ∪ s.protected_goals) }
  let net1 : Network := { net with behaviors := net.behaviors.set i b1 }
  { net1 with
    behaviors := net1.behaviors.set i { b1 with current_activation := net1.new_activation i s } }

/-- The `for behavior in self.behaviors` loop of `update_behaviors`, iterated
over a list of indices. -/
def updateLoop (s : State) : Network → List ℕ → Network
  | net, [] => net
  | net, i :: rest => updateLoop s (net.updateOne s i) rest

/-- `Network.relax()`: when the mean activation exceeds `energy.mean`, scale
every `current_activation` by `energy.mean / mean` and copy it into
`previous_activation`; otherwise do nothing (in the source the copy sits
inside the conditional branch). -/
def Network.relax (net : Network) : Network :=
  let m := net.mean_activation
  if net.energy.mean < m then
    { net with
      behaviors := net.behaviors.map (fun b =>
        { b with
          current_activation := b.current_activation * (net.energy.mean / m),
          previous_activation := b.current_activation * (net.energy.mean / m) }) }
  else net

/-- `Network.update_behaviors(state)`: the per-behavior loop followed by
`relax()`. -/
def Network.update_behaviors (net : Network) (s : State) : Network :=
  (updateLoop s net (List.range net.behaviors.length)).relax

/-- `Network.active(behavior)`: executable and at/above the threshold. -/
def Network.active (net : Network) (b : Behavior) : Bool :=
  b.executable && decide (net.threshold ≤ b.current_activation)

/-- The behavior at index `i` of the network's list (fallback irrelevant:
callers only use valid indices). -/
def activeAt (net : Network) (i : ℕ) : Bool :=
  net.active (net.behaviors.getD i default)

/-- `current_activation` of the behavior at index `i`. -/
def curAt (net : Network) (i : ℕ) : ℚ :=
  (net.behaviors.getD i default).current_activation

/-- One comparison step of Python's
`max([b for b in behaviors if active(b)] + [None])`: the running best is
replaced only when the candidate is active and strictly greater
(`Behavior.__gt__` compares `current_activation`; `None` never wins), so on
ties the earlier behavior is kept. -/
def selectStep (net : Network) : Option ℕ → ℕ → Option ℕ
  | none, i => if activeAt net i then some i else none
  | some j, i =>
    if activeAt net i then
      (if curAt net j < curAt net i then some i else some j)
    else some j

/-- The left-to-right scan underlying `active_behavior`'s `max` call. -/
def selectLoop (net : Network) : List ℕ → Option ℕ → Option ℕ
  | [], acc => acc
  | i :: rest, acc => selectLoop net rest (selectStep net acc i)

/-- `Network.active_behavior()`: index of the winning behavior, `none` when
no behavior is active. -/
def Network.active_behavior (net : Network) : Option ℕ :=
  selectLoop net (List.range net.behaviors.length) none

/-- `Network.run(state)`: update, select, then either decay the threshold by
10% (no winner) or execute the winner and reset the threshold to
`max_threshold`.  The second component records the indices of the behaviors
whose `action.execute()` was invoked. -/
def Network.run (net : Network) (s : State) : Network × List ℕ :=
  let net1 := net.update_behaviors s
  match net1.active_behavior with
  | none => ({ net1 with threshold := net1.threshold * (9 / 10) }, [])
  | some i =>
    ({ net1 with
        behaviors := net1.behaviors.set i (net1.behaviors.getD i default).execute,
        threshold := net1.max_threshold },
      [i])

/-- Modelled from the spec (the reference `update_behaviors` of the
refinement claim, absent from the source): a two-pass cycle that first
recomputes `executable` for every behavior and only then recomputes every
behavior's `current_activation` from the frozen snapshot, followed by
`relax()`. -/
def two_pass_update (net : Network) (s : State) : Network :=
  let bs1 := net.behaviors.map (fun b =>
    { b with executable := decide (b.preconditions ⊆ s.data ∪ s.protected_goals) })
  let net1 : Network := { net with behaviors := bs1 }
  let bs2 := (List.range bs1.length).map (fun i =>
    { bs1.getD i default with current_activation := net1.new_activation i s })
  Network.relax { net1 with behaviors := bs2 }

/-- All fields of two behaviors agree except possibly `current_activation`.
The energy equations read only these fields of other behaviors (plus the
frozen `previous_activation`), never a freshly written `current_activation`;
this relation is the invariant tying the in-place update loop to the
two-pass reference. -/
def ActEq (b c : Behavior) : Prop :=
  b.label = c.label ∧ b.action = c.action ∧ b.preconditions = c.preconditions ∧
  b.additions = c.additions ∧ b.deletions = c.deletions ∧
  b.previous_activation = c.previous_activation ∧ b.executable = c.executable

/-- The behavior value the update loop writes at index `i`, with the
activation evaluated against the frozen network `net0`. -/
def actWrite (net0 : Network) (s : State) (lc : List Behavior) (i : ℕ) : Behavior :=
  { lc.getD i default with current_activation := net0.new_activation i s }

/-- The cumulative effect of the update loop's activation writes on the
behavior list, with each activation evaluated against the frozen network
`net0`. -/
def applyActs (net0 : Network) (s : State) : List Behavior → List ℕ → List Behavior
  | lc, [] => lc
  | lc, i :: rest => applyActs net0 s (lc.set i (actWrite net0 s lc i)) rest

/-! Concrete inputs used by counterexamples and witnesses. -/

/-- A single idle behavior with activation `10`, for the `relax` snapshot
counterexample. -/
def c1b : Behavior := ⟨0, 0, ∅, ∅, ∅, 0, 10, false⟩

/-- A one-behavior network whose mean activation (10) is below the default
`energy.mean` (20), so `relax` takes its no-scaling branch. -/
def c1net : Network := ⟨[c1b], 45, 45, Energy.default⟩

/-- An executable taker (precondition `{0}`, previous activation 70). -/
def c2taker : Behavior := ⟨0, 0, {0}, ∅, ∅, 70, 0, true⟩

/-- A source that deletes item `0`. -/
def c2source : Behavior := ⟨1, 1, ∅, ∅, {0}, 0, 0, false⟩

/-- Network holding the taker/source pair above, default energies. -/
def c2net : Network := ⟨[c2taker, c2source], 45, 45, Energy.default⟩

/-- World state in which item `0` is true. -/
def c2s : State := ⟨{0}, ∅, ∅⟩

/-- Behavior needing item `1` (not satisfied), no effects. -/
def c3b1 : Behavior := ⟨0, 0, {1}, ∅, ∅, 0, 0, false⟩

/-- Behavior needing item `0` (satisfied this cycle) and adding item `1`,
with previous activation 1: it becomes executable during the update. -/
def c3b2 : Behavior := ⟨1, 1, {0}, {1}, ∅, 1, 0, false⟩

/-- Network for the interleaving counterexample. -/
def c3net : Network := ⟨[c3b1, c3b2], 45, 45, Energy.default⟩

/-- World state in which item `0` is true. -/
def c3s : State := ⟨{0}, ∅, ∅⟩

/-- An executable behavior with nontrivial fields, for the `execute` frame
witness. -/
def c10b : Behavior := ⟨3, 7, {0}, {1}, {2}, 5, 8, true⟩

/-- Behavior preconditioned on item `0` ("foo"), for the fair-division
witness. -/
def c7b1 : Behavior := ⟨0, 0, {0}, ∅, ∅, 0, 0, false⟩

/-- Behavior preconditioned on item `1` ("bar"). -/
def c7b2 : Behavior := ⟨1, 1, {1}, ∅, ∅, 0, 0, false⟩

/-- A second behavior preconditioned on item `0`. -/
def c7b3 : Behavior := ⟨2, 2, {0}, ∅, ∅, 0, 0, false⟩

/-- World state in which only item `0` is true. -/
def c7s : State := ⟨{0}, ∅, ∅⟩

/-- An executable behavior with activation 50, above the default threshold
45. -/
def c4b : Behavior := ⟨0, 0, ∅, ∅, ∅, 0, 50, true⟩

/-- A one-behavior network for the selection witnesses. -/
def c4net : Network := ⟨[c4b], 45, 45, Energy.default⟩

/-- The empty world state. -/
def c0s : State := ⟨∅, ∅, ∅⟩

end Cogbox

namespace Cogbox

/-! Helper lemmas shared between the claim theorems. -/

/-- A list element satisfying the filter predicate makes the filtered list
non-empty. -/
theorem filter_length_pos {p : Behavior → Bool} {l : List Behavior} {b : Behavior}
    (hb : b ∈ l) (hpb : p b = true) : 0 < (l.filter p).length :=
  List.length_pos_of_mem (List.mem_filter.mpr ⟨hb, hpb⟩)

/-! Claim theorems. -/

/-- C10: for every behavior with `executable = true`, `Behavior.execute`
sets `current_activation` to `0` and leaves every other field — `label`,
`action`, `preconditions`, `additions`, `deletions`, `previous_activation`
and `executable` — unchanged. -/
theorem execute_zeroes_only_current_activation (b : Behavior) (h : b.executable = true) :
    b.execute.current_activation = 0 ∧ b.execute.label = b.label ∧
    b.execute.action = b.action ∧ b.execute.preconditions = b.preconditions ∧
    b.execute.additions = b.additions ∧ b.execute.deletions = b.deletions ∧
    b.execute.previous_activation = b.previous_activation ∧
    b.execute.executable = b.executable :=
  ⟨rfl, rfl, rfl, rfl, rfl, rfl, rfl, rfl⟩

/-- Witness for C10 at the concrete executable behavior `c10b`. -/
theorem execute_zeroes_only_current_activation_witness :
    c10b.execute.current_activation = 0 ∧ c10b.execute.label = c10b.label ∧
    c10b.execute.action = c10b.action ∧ c10b.execute.preconditions = c10b.preconditions ∧
    c10b.execute.additions = c10b.additions ∧ c10b.execute.deletions = c10b.deletions ∧
    c10b.execute.previous_activation = c10b.previous_activation ∧
    c10b.execute.executable = c10b.executable :=
  execute_zeroes_only_current_activation c10b rfl

/-- C1 (code bug evidence): on a network whose mean activation (10) does not
exceed `energy.mean` (20), `relax()` takes its no-scaling branch and leaves
`previous_activation` (0) different from `current_activation` (10) — the
copy of `current_activation` into `previous_activation` sits inside the
scaling branch, so it is skipped. -/
theorem relax_keeps_stale_previous_activation :
    c1net.mean_activation ≤ c1net.energy.mean ∧
    (c1net.relax.behaviors.getD 0 default).current_activation = 10 ∧
    (c1net.relax.behaviors.getD 0 default).previous_activation = 0 := by
  refine ⟨?_, ?_, ?_⟩ <;>
    norm_num [c1net, c1b, Network.relax, Network.mean_activation, Energy.default]

/-- C2 (counterexample): `take_away` performs no `executable` check — with an
executable taker (`c2taker`) stealing over the live disputed item `0`, it
returns `50`, not `0`. -/
theorem take_away_nonzero_for_executable_taker :
    c2taker.executable = true ∧ c2net.take_away c2taker c2source c2s = 50 := by
  refine ⟨rfl, ?_⟩
  norm_num [c2net, c2taker, c2source, c2s, Network.take_away,
    Network.behaviors_that_delete, Energy.default, List.filter]

/-- C2 (amended): `spread_backwards` and `spread_forward` return exactly `0`
whenever the source behavior is executable, regardless of all other inputs;
no such guarantee holds for `take_away`. -/
theorem spreads_zero_of_source_executable (net : Network) (source destination : Behavior)
    (s : State) (h : source.executable = true) :
    net.spread_backwards source destination s = 0 ∧
    net.spread_forward source destination s = 0 := by
  constructor <;> simp [Network.spread_backwards, Network.spread_forward, h]

/-- Witness for the amended C2 at a concrete executable source. -/
theorem spreads_zero_of_source_executable_witness :
    c2net.spread_backwards c2taker c2source c2s = 0 ∧
    c2net.spread_forward c2taker c2source c2s = 0 :=
  spreads_zero_of_source_executable c2net c2taker c2source c2s rfl

/-- C6: `take_away(taker, source, s)` returns `0` when the taker is strictly
weaker than the source and the disputed-item set
`s.data ∩ source.preconditions ∩ taker.deletions` is non-empty; otherwise it
returns `taker.previous_activation * (energy.conf / energy.goals)` times the
sum over `taker.preconditions ∩ source.deletions ∩ s.data` of
`(1/|behaviors_that_delete item|) * (1/|source.deletions|)`. -/
theorem take_away_formula (net : Network) (taker source : Behavior) (s : State) :
    (taker.previous_activation < source.previous_activation ∧
        (s.data ∩ source.preconditions ∩ taker.deletions).Nonempty →
      net.take_away taker source s = 0) ∧
    (¬ (taker.previous_activation < source.previous_activation ∧
        (s.data ∩ source.preconditions ∩ taker.deletions).Nonempty) →
      net.take_away taker source s =
        taker.previous_activation * (net.energy.conf / net.energy.goals) *
          ∑ item ∈ taker.preconditions ∩ source.deletions ∩ s.data,
            (1 / ((net.behaviors_that_delete item).length : ℚ)) *
              (1 / ((source.deletions.card : ℚ)))) := by
  constructor
  · intro h
    rw [Network.take_away, if_pos ⟨h.1, Finset.card_pos.mpr h.2⟩]
  · intro h
    rw [Network.take_away, if_neg fun hc => h ⟨hc.1, Finset.card_pos.mp hc.2⟩]

/-- Witness for C6: the non-shielded branch at the concrete inputs of the
`take_away` counterexample evaluates to the stated product. -/
theorem take_away_formula_witness :
    c2net.take_away c2taker c2source c2s =
      c2taker.previous_activation * (c2net.energy.conf / c2net.energy.goals) *
        ∑ item ∈ c2taker.preconditions ∩ c2source.deletions ∩ c2s.data,
          (1 / ((c2net.behaviors_that_delete item).length : ℚ)) *
            (1 / ((c2source.deletions.card : ℚ))) :=
  (take_away_formula c2net c2taker c2source c2s).2 (by
    intro hc
    exact absurd hc.1 (by norm_num [c2taker, c2source]))

/-- C7 (fair-division law): in a network with behaviors `b1` (preconditions
`{0}`) and `b2` (preconditions `{1}`) and `state.data = {0}`,
`input_from_data(b1, state)` equals `energy.data`; with a third behavior
`b3` also preconditioned on `{0}` appended, it equals `energy.data / 2`. -/
theorem input_from_data_fair_division (e : Energy) (t1 t2 : ℚ) (b1 b2 b3 : Behavior)
    (s : State) (h1 : b1.preconditions = {0}) (h2 : b2.preconditions = {1})
    (h3 : b3.preconditions = {0}) (hd : s.data = {0}) (hp : s.protected_goals = ∅) :
    Network.input_from_data ⟨[b1, b2], t1, t1, e⟩ b1 s = e.data ∧
    Network.input_from_data ⟨[b1, b2, b3], t2, t2, e⟩ b1 s = e.data / 2 := by
  constructor <;>
    norm_num [Network.input_from_data, Network.behaviors_that_need, List.filter,
      h1, h2, h3, hd, hp, Finset.sum_singleton, mul_one_div]

/-- Witness for C7 at concrete behaviors and the default energy. -/
theorem input_from_data_fair_division_witness :
    Network.input_from_data ⟨[c7b1, c7b2], 45, 45, Energy.default⟩ c7b1 c7s =
      Energy.default.data ∧
    Network.input_from_data ⟨[c7b1, c7b2, c7b3], 45, 45, Energy.default⟩ c7b1 c7s =
      Energy.default.data / 2 :=
  input_from_data_fair_division Energy.default 45 45 c7b1 c7b2 c7b3 c7s
    rfl rfl rfl rfl rfl

/-- C8 (division safety): for behaviors belonging to the network's behavior
list, every item summed over by `input_from_data`, `input_from_goals`,
`taken_by_protected_goals`, `spread_backwards`, `spread_forward` and
`take_away` is drawn from an intersection with the relevant behavior's own
precondition/addition/deletion set, so both denominators of its term — the
`behaviors_that_need`/`add`/`delete` count and the behavior's own set size —
are strictly positive; an empty intersection yields an empty sum (zero), not
a division fault. -/
theorem denominators_positive (net : Network) (b destination source taker : Behavior)
    (s : State) (hb : b ∈ net.behaviors) (hdest : destination ∈ net.behaviors)
    (hsrc : source ∈ net.behaviors) :
    (∀ item ∈ (s.data ∪ s.protected_goals) ∩ b.preconditions,
        0 < (net.behaviors_that_need item).length ∧ 0 < b.preconditions.card) ∧
    (∀ item ∈ s.goals ∩ b.additions,
        0 < (net.behaviors_that_add item).length ∧ 0 < b.additions.card) ∧
    (∀ item ∈ s.protected_goals ∩ b.deletions,
        0 < (net.behaviors_that_delete item).length ∧ 0 < b.deletions.card) ∧
    (∀ item ∈ (source.preconditions ∩ destination.additions) \ s.data,
        0 < (net.behaviors_that_add item).length ∧ 0 < destination.additions.card) ∧
    (∀ item ∈ (source.additions ∩ destination.preconditions) \ s.data,
        0 < (net.behaviors_that_need item).length ∧ 0 < destination.preconditions.card) ∧
    (∀ item ∈ taker.preconditions ∩ source.deletions ∩ s.data,
        0 < (net.behaviors_that_delete item).length ∧ 0 < source.deletions.card) := by
  refine ⟨?_, ?_, ?_, ?_, ?_, ?_⟩ <;> intro item hitem
  · have h : item ∈ b.preconditions := (Finset.mem_inter.mp hitem).2
    exact ⟨filter_length_pos hb (by simpa using h), Finset.card_pos.mpr ⟨item, h⟩⟩
  · have h : item ∈ b.additions := (Finset.mem_inter.mp hitem).2
    exact ⟨filter_length_pos hb (by simpa using h), Finset.card_pos.mpr ⟨item, h⟩⟩
  · have h : item ∈ b.deletions := (Finset.mem_inter.mp hitem).2
    exact ⟨filter_length_pos hb (by simpa using h), Finset.card_pos.mpr ⟨item, h⟩⟩
  · have h : item ∈ destination.additions :=
      (Finset.mem_inter.mp (Finset.mem_sdiff.mp hitem).1).2
    exact ⟨filter_length_pos hdest (by simpa using h), Finset.card_pos.mpr ⟨item, h⟩⟩
  · have h : item ∈ destination.preconditions :=
      (Finset.mem_inter.mp (Finset.mem_sdiff.mp hitem).1).2
    exact ⟨filter_length_pos hdest (by simpa using h), Finset.card_pos.mpr ⟨item, h⟩⟩
  · have h : item ∈ source.deletions :=
      (Finset.mem_inter.mp (Finset.mem_inter.mp hitem).1).2
    exact ⟨filter_length_pos hsrc (by simpa using h), Finset.card_pos.mpr ⟨item, h⟩⟩

/-- Witness for C8 at the concrete two-behavior network `c2net`. -/
theorem denominators_positive_witness :
    (∀ item ∈ (c2s.data ∪ c2s.protected_goals) ∩ c2taker.preconditions,
        0 < (c2net.behaviors_that_need item).length ∧ 0 < c2taker.preconditions.card) ∧
    (∀ item ∈ c2s.goals ∩ c2taker.additions,
        0 < (c2net.behaviors_that_add item).length ∧ 0 < c2taker.additions.card) ∧
    (∀ item ∈ c2s.protected_goals ∩ c2taker.deletions,
        0 < (c2net.behaviors_that_delete item).length ∧ 0 < c2taker.deletions.card) ∧
    (∀ item ∈ (c2source.preconditions ∩ c2source.additions) \ c2s.data,
        0 < (c2net.behaviors_that_add item).length ∧ 0 < c2source.additions.card) ∧
    (∀ item ∈ (c2source.additions ∩ c2source.preconditions) \ c2s.data,
        0 < (c2net.behaviors_that_need item).length ∧ 0 < c2source.preconditions.card) ∧
    (∀ item ∈ c2taker.preconditions ∩ c2source.deletions ∩ c2s.data,
        0 < (c2net.behaviors_that_delete item).length ∧ 0 < c2source.deletions.card) :=
  denominators_positive c2net c2taker c2source c2source c2taker c2s
    (by simp [c2net]) (by simp [c2net]) (by simp [c2net])

/-- Bridge between the total `getD` access used by the loop embeddings and
the proof-carrying `get`. -/
theorem getD_of_lt {l : List Behavior} {i : ℕ} (h : i < l.length) :
    l.getD i default = l.get ⟨i, h⟩ := by
  simp [List.getD_eq_getElem?_getD, List.getElem?_eq_getElem h]

/-- One `max`-scan step yields `none` only from `none` with an inactive
candidate. -/
theorem selectStep_eq_none_iff {net : Network} {acc : Option ℕ} {i : ℕ} :
    selectStep net acc i = none ↔ acc = none ∧ activeAt net i = false := by
  rcases acc with - | a
  · by_cases hA : activeAt net i = true <;> simp [selectStep, hA]
  · rw [selectStep]
    by_cases hA : activeAt net i = true
    · rw [if_pos hA]
      constructor
      · intro h; split at h <;> exact absurd h (by simp)
      · rintro ⟨h, -⟩; exact absurd h (by simp)
    · rw [if_neg hA]; simp

/-- A `max`-scan step returning `some j` either kept the accumulator or
selected the (active) candidate. -/
theorem selectStep_some_cases {net : Network} {acc : Option ℕ} {i j : ℕ}
    (h : selectStep net acc i = some j) :
    acc = some j ∨ (j = i ∧ activeAt net i = true) := by
  rcases acc with - | a
  · rw [selectStep] at h
    by_cases hA : activeAt net i = true
    · rw [if_pos hA] at h; cases h; exact Or.inr ⟨rfl, hA⟩
    · rw [if_neg hA] at h; cases h
  · rw [selectStep] at h
    by_cases hA : activeAt net i = true
    · rw [if_pos hA] at h
      split at h
      · cases h; exact Or.inr ⟨rfl, hA⟩
      · cases h; exact Or.inl rfl
    · rw [if_neg hA] at h; cases h; exact Or.inl rfl

/-- An active candidate never ends up above the scan result. -/
theorem selectStep_le_of_active {net : Network} {acc : Option ℕ} {i j : ℕ}
    (hA : activeAt net i = true) (h : selectStep net acc i = some j) :
    curAt net i ≤ curAt net j := by
  rcases acc with - | a
  · rw [selectStep, if_pos hA] at h; cases h; exact le_refl _
  · rw [selectStep, if_pos hA] at h
    rcases lt_or_le (curAt net a) (curAt net i) with hlt | hle
    · rw [if_pos hlt] at h; cases h; exact le_refl _
    · rw [if_neg (not_lt.mpr hle)] at h; cases h; exact hle

/-- The accumulator never ends up above the scan result. -/
theorem selectStep_le_of_acc {net : Network} {i j a : ℕ}
    (h : selectStep net (some a) i = some j) :
    curAt net a ≤ curAt net j := by
  rw [selectStep] at h
  by_cases hA : activeAt net i = true
  · rw [if_pos hA] at h
    rcases lt_or_le (curAt net a) (curAt net i) with hlt | hle
    · rw [if_pos hlt] at h; cases h; exact le_of_lt hlt
    · rw [if_neg (not_lt.mpr hle)] at h; cases h; exact le_refl _
  · rw [if_neg hA] at h; cases h; exact le_refl _

/-- The whole `max` scan yields `none` iff it started from `none` and saw no
active index. -/
theorem selectLoop_eq_none_iff (net : Network) (l : List ℕ) (acc : Option ℕ) :
    selectLoop net l acc = none ↔
      acc = none ∧ ∀ i ∈ l, activeAt net i = false := by
  induction l generalizing acc with
  | nil => simp [selectLoop]
  | cons i rest ih =>
    rw [selectLoop, ih, selectStep_eq_none_iff]
    simp [List.forall_mem_cons, and_assoc]

/-- A scan ending in `some j` dominates every active index it visited and
its starting accumulator, and `j` itself was the accumulator or an active
visited index. -/
theorem selectLoop_some_spec (net : Network) (l : List ℕ) :
    ∀ (acc : Option ℕ) (j : ℕ), selectLoop net l acc = some j →
      (∀ i ∈ l, activeAt net i = true → curAt net i ≤ curAt net j) ∧
      (∀ a, acc = some a → curAt net a ≤ curAt net j) ∧
      (acc = some j ∨ (j ∈ l ∧ activeAt net j = true)) := by
  induction l with
  | nil =>
    intro acc j h
    rw [selectLoop] at h
    subst h
    refine ⟨by simp, ?_, Or.inl rfl⟩
    intro a ha
    exact le_of_eq (congrArg (curAt net) (Option.some_inj.mp ha).symm)
  | cons i rest ih =>
    intro acc j h
    rw [selectLoop] at h
    obtain ⟨H1, H2, H3⟩ := ih _ _ h
    refine ⟨?_, ?_, ?_⟩
    · intro q hq hAq
      rcases List.mem_cons.mp hq with rfl | hmem
      · rcases hstep : selectStep net acc q with - | j1
        · rw [selectStep_eq_none_iff] at hstep
          exact absurd hAq (by simp [hstep.2])
        · exact le_trans (selectStep_le_of_active hAq hstep) (H2 j1 hstep)
      · exact H1 q hmem hAq
    · intro a ha
      subst ha
      rcases hstep : selectStep net (some a) i with - | j1
      · rw [selectStep_eq_none_iff] at hstep
        exact absurd hstep.1 (by simp)
      · exact le_trans (selectStep_le_of_acc hstep) (H2 j1 hstep)
    · rcases H3 with hstep | ⟨hmem, hAj⟩
      · rcases selectStep_some_cases hstep with hacc | ⟨rfl, hAi⟩
        · exact Or.inl hacc
        · exact Or.inr ⟨List.mem_cons_self _ _, hAi⟩
      · exact Or.inr ⟨List.mem_cons.mpr (Or.inr hmem), hAj⟩

/-- C4: for a non-empty behavior list, `active_behavior()` returns `none`
iff no behavior is simultaneously executable and at/above the threshold;
when it returns an index, that behavior is executable, at/above the
threshold, and has the greatest `current_activation` among all such
behaviors. -/
theorem active_behavior_none_iff_and_max (net : Network) (hne : net.behaviors ≠ []) :
    (net.active_behavior = none ↔
      ∀ b ∈ net.behaviors,
        ¬(b.executable = true ∧ net.threshold ≤ b.current_activation)) ∧
    ∀ j, net.active_behavior = some j →
      ∃ h : j < net.behaviors.length,
        (net.behaviors.get ⟨j, h⟩).executable = true ∧
        net.threshold ≤ (net.behaviors.get ⟨j, h⟩).current_activation ∧
        ∀ b ∈ net.behaviors, b.executable = true ∧ net.threshold ≤ b.current_activation →
          b.current_activation ≤ (net.behaviors.get ⟨j, h⟩).current_activation := by
  constructor
  · rw [Network.active_behavior, selectLoop_eq_none_iff]
    simp only [true_and]
    constructor
    · intro hall b hb hP
      obtain ⟨⟨i, hi⟩, rfl⟩ := List.mem_iff_get.mp hb
      have hfalse := hall i (List.mem_range.mpr hi)
      rw [activeAt, Network.active, getD_of_lt hi, Bool.eq_false_iff] at hfalse
      exact hfalse (by rw [Bool.and_eq_true, decide_eq_true_eq]; exact hP)
    · intro hall i hi
      have hi2 : i < net.behaviors.length := List.mem_range.mp hi
      have hnot := hall _ (net.behaviors.get_mem _ hi2)
      rw [activeAt, Network.active, getD_of_lt hi2, Bool.eq_false_iff]
      intro htrue
      rw [Bool.and_eq_true, decide_eq_true_eq] at htrue
      exact hnot htrue
  · intro j h
    rw [Network.active_behavior] at h
    obtain ⟨H1, -, H3⟩ := selectLoop_some_spec net _ _ _ h
    rcases H3 with hacc | ⟨hmem, hAj⟩
    · exact absurd hacc (by simp)
    · have hj : j < net.behaviors.length := List.mem_range.mp hmem
      rw [activeAt, Network.active, getD_of_lt hj, Bool.and_eq_true, decide_eq_true_eq] at hAj
      refine ⟨hj, hAj.1, hAj.2, ?_⟩
      intro b hb hP
      obtain ⟨⟨i, hi⟩, rfl⟩ := List.mem_iff_get.mp hb
      have hAi : activeAt net i = true := by
        rw [activeAt, Network.active, getD_of_lt hi, Bool.and_eq_true, decide_eq_true_eq]
        exact hP
      have hle := H1 i (List.mem_range.mpr hi) hAi
      rw [curAt, curAt, getD_of_lt hi, getD_of_lt hj] at hle
      exact hle

/-- Witness for C4: the `none`-iff characterization instantiated at the
concrete one-behavior network `c4net`. -/
theorem active_behavior_none_iff_and_max_witness :
    c4net.active_behavior = none ↔
      ∀ b ∈ c4net.behaviors,
        ¬(b.executable = true ∧ c4net.threshold ≤ b.current_activation) :=
  (active_behavior_none_iff_and_max c4net (by simp [c4net])).1



/-- Reading back the index just written. -/
theorem getD_set_self {l : List Behavior} {i : ℕ} (h : i < l.length) (a : Behavior) :
    (l.set i a).getD i default = a := by
  simp [List.getD_eq_getElem?_getD, List.getElem?_set_self h]

/-- Writing one index leaves the others unchanged. -/
theorem getD_set_ne {l : List Behavior} {i j : ℕ} (h : i ≠ j) (a : Behavior) :
    (l.set i a).getD j default = l.getD j default := by
  simp [List.getD_eq_getElem?_getD, List.getElem?_set_ne h]

/-- One update-loop iteration preserves the list length. -/
theorem updateOne_length (net : Network) (s : State) (i : ℕ) :
    (net.updateOne s i).behaviors.length = net.behaviors.length := by
  simp [Network.updateOne]

theorem updateOne_threshold (net : Network) (s : State) (i : ℕ) :
    (net.updateOne s i).threshold = net.threshold := rfl

theorem updateOne_max_threshold (net : Network) (s : State) (i : ℕ) :
    (net.updateOne s i).max_threshold = net.max_threshold := rfl

theorem updateOne_energy (net : Network) (s : State) (i : ℕ) :
    (net.updateOne s i).energy = net.energy := rfl

/-- The update loop preserves the list length. -/
theorem updateLoop_length (s : State) :
    ∀ (l : List ℕ) (net : Network),
      (updateLoop s net l).behaviors.length = net.behaviors.length := by
  intro l
  induction l with
  | nil => intro net; rfl
  | cons i rest ih => intro net; rw [updateLoop, ih, updateOne_length]

theorem updateLoop_max_threshold (s : State) :
    ∀ (l : List ℕ) (net : Network),
      (updateLoop s net l).max_threshold = net.max_threshold := by
  intro l
  induction l with
  | nil => intro net; rfl
  | cons i rest ih => intro net; rw [updateLoop, ih, updateOne_max_threshold]

theorem updateLoop_threshold (s : State) :
    ∀ (l : List ℕ) (net : Network),
      (updateLoop s net l).threshold = net.threshold := by
  intro l
  induction l with
  | nil => intro net; rfl
  | cons i rest ih => intro net; rw [updateLoop, ih, updateOne_threshold]

theorem updateLoop_energy (s : State) :
    ∀ (l : List ℕ) (net : Network),
      (updateLoop s net l).energy = net.energy := by
  intro l
  induction l with
  | nil => intro net; rfl
  | cons i rest ih => intro net; rw [updateLoop, ih, updateOne_energy]

/-- `relax` leaves `max_threshold` unchanged. -/
theorem relax_max_threshold (net : Network) :
    net.relax.max_threshold = net.max_threshold := by
  simp only [Network.relax]
  split <;> rfl

/-- `relax` leaves `threshold` unchanged. -/
theorem relax_threshold (net : Network) :
    net.relax.threshold = net.threshold := by
  simp only [Network.relax]
  split <;> rfl

/-- `relax` leaves the energy configuration unchanged. -/
theorem relax_energy (net : Network) :
    net.relax.energy = net.energy := by
  simp only [Network.relax]
  split <;> rfl

/-- `update_behaviors` leaves `max_threshold` unchanged. -/
theorem update_behaviors_max_threshold (net : Network) (s : State) :
    (net.update_behaviors s).max_threshold = net.max_threshold := by
  rw [Network.update_behaviors, relax_max_threshold, updateLoop_max_threshold]

/-- C5: one call to `run(state)` invokes at most one behavior's action; when
`active_behavior()` is `none` it executes nothing and multiplies the
threshold by `0.9`, and otherwise it executes exactly the selected winner —
whose `current_activation` becomes `0` — and resets the threshold to
`max_threshold`. -/
theorem run_spec (net : Network) (s : State) (hne : net.behaviors ≠ []) :
    (net.run s).2.length ≤ 1 ∧
    ((net.update_behaviors s).active_behavior = none →
      (net.run s).2 = [] ∧
      (net.run s).1.threshold = (net.update_behaviors s).threshold * (9 / 10) ∧
      (net.run s).1.behaviors = (net.update_behaviors s).behaviors) ∧
    ∀ j, (net.update_behaviors s).active_behavior = some j →
      (net.run s).2 = [j] ∧
      (net.run s).1.threshold = net.max_threshold ∧
      ((net.run s).1.behaviors.getD j default).current_activation = 0 ∧
      (net.run s).1.behaviors =
        (net.update_behaviors s).behaviors.set j
          ((net.update_behaviors s).behaviors.getD j default).execute := by
  rcases hsel : (net.update_behaviors s).active_behavior with - | i
  · have hrun : net.run s =
        ({ net.update_behaviors s with
            threshold := (net.update_behaviors s).threshold * (9 / 10) }, []) := by
      simp only [Network.run, hsel]
    rw [hrun]
    refine ⟨by simp, fun _ => ⟨rfl, rfl, rfl⟩, ?_⟩
    intro j hj
    cases hj
  · have hrun : net.run s =
        ({ net.update_behaviors s with
            behaviors := (net.update_behaviors s).behaviors.set i
              ((net.update_behaviors s).behaviors.getD i default).execute,
            threshold := (net.update_behaviors s).max_threshold }, [i]) := by
      simp only [Network.run, hsel]
    have hi : i < (net.update_behaviors s).behaviors.length := by
      have h2 := hsel
      rw [Network.active_behavior] at h2
      obtain ⟨-, -, H3⟩ := selectLoop_some_spec _ _ _ _ h2
      rcases H3 with hacc | ⟨hmem, -⟩
      · exact absurd hacc (by simp)
      · exact List.mem_range.mp hmem
    rw [hrun]
    refine ⟨by simp, ?_, ?_⟩
    · intro hnone
      cases hnone
    · intro j hj
      have hij : i = j := Option.some_inj.mp hj
      subst hij
      refine ⟨rfl, update_behaviors_max_threshold net s, ?_, rfl⟩
      show (((net.update_behaviors s).behaviors.set i
          ((net.update_behaviors s).behaviors.getD i default).execute).getD i
            default).current_activation = 0
      rw [getD_set_self hi]
      rfl



/-- One update-loop iteration touches only its own index. -/
theorem updateOne_getD_ne {net : Network} {s : State} {i j : ℕ} (h : i ≠ j) :
    (net.updateOne s i).behaviors.getD j default = net.behaviors.getD j default := by
  simp only [Network.updateOne]
  rw [getD_set_ne h, getD_set_ne h]

/-- The activation written by an update-loop iteration is clamped at `0`. -/
theorem updateOne_nonneg_self {net : Network} {s : State} {i : ℕ}
    (h : i < net.behaviors.length) :
    0 ≤ ((net.updateOne s i).behaviors.getD i default).current_activation := by
  simp only [Network.updateOne]
  rw [getD_set_self (by rw [List.length_set]; exact h)]
  exact le_max_right _ 0

/-- The update loop leaves unvisited indices unchanged. -/
theorem updateLoop_getD_not_mem (s : State) :
    ∀ (l : List ℕ) (net : Network) (j : ℕ), j ∉ l →
      (updateLoop s net l).behaviors.getD j default = net.behaviors.getD j default := by
  intro l
  induction l with
  | nil => intro net j _; rfl
  | cons i rest ih =>
    intro net j hj
    rw [updateLoop, ih _ j (fun hmem => hj (List.mem_cons.mpr (Or.inr hmem))),
      updateOne_getD_ne (fun hij => hj (List.mem_cons.mpr (Or.inl hij.symm)))]

/-- Every index visited by the update loop ends with a non-negative
activation. -/
theorem updateLoop_nonneg_mem (s : State) :
    ∀ (l : List ℕ) (net : Network) (j : ℕ), j ∈ l → j < net.behaviors.length →
      0 ≤ ((updateLoop s net l).behaviors.getD j default).current_activation := by
  intro l
  induction l with
  | nil => intro net j hj _; cases hj
  | cons i rest ih =>
    intro net j hj hlt
    by_cases hmem : j ∈ rest
    · exact ih _ j hmem (by rw [updateOne_length]; exact hlt)
    · have hij : j = i := by
        rcases List.mem_cons.mp hj with h | h
        · exact h
        · exact absurd h hmem
      subst hij
      rw [updateLoop, updateLoop_getD_not_mem s rest _ j hmem]
      exact updateOne_nonneg_self hlt

/-- `relax` preserves non-negativity of activations when `energy.mean` is
non-negative. -/
theorem relax_nonneg (net : Network) (hmean : 0 ≤ net.energy.mean)
    (h : ∀ b ∈ net.behaviors, 0 ≤ b.current_activation) :
    ∀ b ∈ net.relax.behaviors, 0 ≤ b.current_activation := by
  intro b hb
  simp only [Network.relax] at hb
  by_cases hc : net.energy.mean < net.mean_activation
  · rw [if_pos hc] at hb
    obtain ⟨b0, hb0, rfl⟩ := List.mem_map.mp hb
    have hcpos : 0 < net.mean_activation := lt_of_le_of_lt hmean hc
    exact mul_nonneg (h b0 hb0) (div_nonneg hmean (le_of_lt hcpos))
  · rw [if_neg hc] at hb
    exact h b hb

/-- After `update_behaviors` every activation is non-negative. -/
theorem update_behaviors_nonneg (net : Network) (s : State)
    (hmean : 0 ≤ net.energy.mean) :
    ∀ b ∈ (net.update_behaviors s).behaviors, 0 ≤ b.current_activation := by
  rw [Network.update_behaviors]
  refine relax_nonneg _ ?_ ?_
  · rw [updateLoop_energy]; exact hmean
  · intro b hb
    obtain ⟨⟨i, hi⟩, rfl⟩ := List.mem_iff_get.mp hb
    rw [← getD_of_lt hi]
    have hlen : (updateLoop s net (List.range net.behaviors.length)).behaviors.length =
        net.behaviors.length := updateLoop_length s _ net
    have hi2 : i < net.behaviors.length := by rw [← hlen]; exact hi
    exact updateLoop_nonneg_mem s _ net i (List.mem_range.mpr hi2) hi2

/-- C9: with non-negative energy constants and a non-empty behavior list,
every behavior's `current_activation` is non-negative after every network
operation: `update_behaviors` clamps at `0`, `run` additionally only zeroes
the winner, `relax` scales by a non-negative factor, and `execute` writes
`0`. -/
theorem current_activation_nonneg_invariant (net : Network) (s : State)
    (hmean : 0 ≤ net.energy.mean) (hdata : 0 ≤ net.energy.data)
    (hgoals : 0 ≤ net.energy.goals) (hconf : 0 ≤ net.energy.conf)
    (hne : net.behaviors ≠ []) :
    (∀ b ∈ (net.update_behaviors s).behaviors, 0 ≤ b.current_activation) ∧
    (∀ b ∈ (net.run s).1.behaviors, 0 ≤ b.current_activation) ∧
    ((∀ b ∈ net.behaviors, 0 ≤ b.current_activation) →
      ∀ b ∈ net.relax.behaviors, 0 ≤ b.current_activation) ∧
    ∀ b : Behavior, 0 ≤ b.execute.current_activation := by
  refine ⟨update_behaviors_nonneg net s hmean, ?_, relax_nonneg net hmean, fun b => le_refl 0⟩
  rcases hsel : (net.update_behaviors s).active_behavior with - | i
  · have hrun : (net.run s).1 = { net.update_behaviors s with
        threshold := (net.update_behaviors s).threshold * (9 / 10) } := by
      simp only [Network.run, hsel]
    rw [hrun]
    exact update_behaviors_nonneg net s hmean
  · have hrun : (net.run s).1 = { net.update_behaviors s with
        behaviors := (net.update_behaviors s).behaviors.set i
          ((net.update_behaviors s).behaviors.getD i default).execute,
        threshold := (net.update_behaviors s).max_threshold } := by
      simp only [Network.run, hsel]
    rw [hrun]
    intro b hb
    rcases List.mem_or_eq_of_mem_set hb with hmem | rfl
    · exact update_behaviors_nonneg net s hmean b hmem
    · exact le_refl 0

/-- Witness for C5: the action-trace bound instantiated at the concrete
network `c4net` and the empty state. -/
theorem run_spec_witness : (c4net.run c0s).2.length ≤ 1 :=
  (run_spec c4net c0s (by simp [c4net])).1

/-- Witness for C9: the invariant instantiated at the concrete network
`c4net`, the empty state, and the executed behavior `c4b`. -/
theorem current_activation_nonneg_invariant_witness :
    0 ≤ c4b.execute.current_activation :=
  (current_activation_nonneg_invariant c4net c0s
    (by norm_num [c4net, Energy.default]) (by norm_num [c4net, Energy.default])
    (by norm_num [c4net, Energy.default]) (by norm_num [c4net, Energy.default])
    (by simp [c4net])).2.2.2 c4b


/-- `ActEq` is reflexive. -/
theorem actEq_refl (b : Behavior) : ActEq b b := ⟨rfl, rfl, rfl, rfl, rfl, rfl, rfl⟩

/-- Pointwise reflexivity of `ActEq` on a list. -/
theorem forall₂_actEq_refl : ∀ l : List Behavior, List.Forall₂ ActEq l l
  | [] => List.Forall₂.nil
  | b :: l => List.Forall₂.cons (actEq_refl b) (forall₂_actEq_refl l)

/-- Two behaviors agreeing on every field are equal. -/
theorem actEq_ext {b c : Behavior} (h : ActEq b c)
    (hcur : b.current_activation = c.current_activation) : b = c := by
  obtain ⟨h1, h2, h3, h4, h5, h6, h7⟩ := h
  cases b; cases c
  simp_all

/-- Overwriting `current_activation` preserves `ActEq`. -/
theorem actEq_setCur {b c : Behavior} (h : ActEq b c) (x : ℚ) :
    ActEq { b with current_activation := x } c := h

/-- `ActEq`-related lists are `ActEq`-related entrywise (with the shared
default element out of range). -/
theorem forall₂_actEq_getD {l1 l2 : List Behavior} (h : List.Forall₂ ActEq l1 l2) :
    ∀ j : ℕ, ActEq (l1.getD j default) (l2.getD j default) := by
  induction h with
  | nil => intro j; exact actEq_refl _
  | cons hbc hrest ih =>
    intro j
    cases j with
    | zero => simpa using hbc
    | succ j => simpa using ih j

/-- Writing an `ActEq`-compatible value preserves list-level `ActEq`. -/
theorem forall₂_actEq_set {l1 l2 : List Behavior} (h : List.Forall₂ ActEq l1 l2) :
    ∀ {i : ℕ} {a : Behavior}, ActEq a (l2.getD i default) →
      List.Forall₂ ActEq (l1.set i a) l2 := by
  induction h with
  | nil => intro i a _; exact List.Forall₂.nil
  | cons hbc hrest ih =>
    intro i a ha
    cases i with
    | zero => exact List.Forall₂.cons (by simpa using ha) hrest
    | succ i => exact List.Forall₂.cons hbc (ih (by simpa using ha))

/-- Filters whose predicates agree across `ActEq` keep equal lengths. -/
theorem forall₂_filter_length {p q : Behavior → Bool}
    (hpq : ∀ b c, ActEq b c → p b = q c) :
    ∀ {l1 l2 : List Behavior}, List.Forall₂ ActEq l1 l2 →
      (l1.filter p).length = (l2.filter q).length := by
  intro l1 l2 h
  induction h with
  | nil => rfl
  | cons hbc hrest ih =>
    rw [List.filter_cons, List.filter_cons, hpq _ _ hbc]
    split
    · simp [ih]
    · exact ih

/-- `behaviors_that_need` counts are insensitive to `current_activation`. -/
theorem that_need_length_congr {net0 : Network} {lc : List Behavior}
    (h : List.Forall₂ ActEq lc net0.behaviors) (item : ℕ) :
    (Network.behaviors_that_need { net0 with behaviors := lc } item).length =
      (net0.behaviors_that_need item).length :=
  forall₂_filter_length (fun _ _ hbc => by rw [hbc.2.2.1]) h

/-- `behaviors_that_add` counts are insensitive to `current_activation`. -/
theorem that_add_length_congr {net0 : Network} {lc : List Behavior}
    (h : List.Forall₂ ActEq lc net0.behaviors) (item : ℕ) :
    (Network.behaviors_that_add { net0 with behaviors := lc } item).length =
      (net0.behaviors_that_add item).length :=
  forall₂_filter_length (fun _ _ hbc => by rw [hbc.2.2.2.1]) h

/-- `behaviors_that_delete` counts are insensitive to `current_activation`. -/
theorem that_delete_length_congr {net0 : Network} {lc : List Behavior}
    (h : List.Forall₂ ActEq lc net0.behaviors) (item : ℕ) :
    (Network.behaviors_that_delete { net0 with behaviors := lc } item).length =
      (net0.behaviors_that_delete item).length :=
  forall₂_filter_length (fun _ _ hbc => by rw [hbc.2.2.2.2.1]) h



/-- `input_from_data` never reads a `current_activation`. -/
theorem input_from_data_congr {net0 : Network} {lc : List Behavior}
    (h : List.Forall₂ ActEq lc net0.behaviors) {b c : Behavior} (hbc : ActEq b c)
    (s : State) :
    Network.input_from_data { net0 with behaviors := lc } b s =
      net0.input_from_data c s := by
  rw [Network.input_from_data, Network.input_from_data, hbc.2.2.1]
  dsimp only
  congr 1
  apply Finset.sum_congr rfl
  intro item _
  rw [that_need_length_congr h item]

/-- `input_from_goals` never reads a `current_activation`. -/
theorem input_from_goals_congr {net0 : Network} {lc : List Behavior}
    (h : List.Forall₂ ActEq lc net0.behaviors) {b c : Behavior} (hbc : ActEq b c)
    (s : State) :
    Network.input_from_goals { net0 with behaviors := lc } b s =
      net0.input_from_goals c s := by
  rw [Network.input_from_goals, Network.input_from_goals, hbc.2.2.2.1]
  dsimp only
  congr 1
  apply Finset.sum_congr rfl
  intro item _
  rw [that_add_length_congr h item]

/-- `taken_by_protected_goals` never reads a `current_activation`. -/
theorem taken_by_protected_goals_congr {net0 : Network} {lc : List Behavior}
    (h : List.Forall₂ ActEq lc net0.behaviors) {b c : Behavior} (hbc : ActEq b c)
    (s : State) :
    Network.taken_by_protected_goals { net0 with behaviors := lc } b s =
      net0.taken_by_protected_goals c s := by
  rw [Network.taken_by_protected_goals, Network.taken_by_protected_goals, hbc.2.2.2.2.1]
  dsimp only
  congr 1
  apply Finset.sum_congr rfl
  intro item _
  rw [that_delete_length_congr h item]

/-- `spread_backwards` never reads a `current_activation`. -/
theorem spread_backwards_congr {net0 : Network} {lc : List Behavior}
    (h : List.Forall₂ ActEq lc net0.behaviors) {src src2 dst dst2 : Behavior}
    (hs : ActEq src src2) (hd : ActEq dst dst2) (s : State) :
    Network.spread_backwards { net0 with behaviors := lc } src dst s =
      net0.spread_backwards src2 dst2 s := by
  rw [Network.spread_backwards, Network.spread_backwards,
    hs.2.2.2.2.2.2, hs.2.2.2.2.2.1, hs.2.2.1, hd.2.2.2.1]
  by_cases hex : src2.executable = true
  · rw [if_pos hex, if_pos hex]
  · rw [if_neg hex, if_neg hex]
    congr 1
    apply Finset.sum_congr rfl
    intro item _
    rw [that_add_length_congr h item]

/-- `spread_forward` never reads a `current_activation`. -/
theorem spread_forward_congr {net0 : Network} {lc : List Behavior}
    (h : List.Forall₂ ActEq lc net0.behaviors) {src src2 dst dst2 : Behavior}
    (hs : ActEq src src2) (hd : ActEq dst dst2) (s : State) :
    Network.spread_forward { net0 with behaviors := lc } src dst s =
      net0.spread_forward src2 dst2 s := by
  rw [Network.spread_forward, Network.spread_forward,
    hs.2.2.2.2.2.2, hs.2.2.2.2.2.1, hs.2.2.2.1, hd.2.2.1]
  dsimp only
  by_cases hex : src2.executable = true
  · rw [if_pos hex, if_pos hex]
  · rw [if_neg hex, if_neg hex]
    congr 1
    apply Finset.sum_congr rfl
    intro item _
    rw [that_need_length_congr h item]

/-- `take_away` never reads a `current_activation`. -/
theorem take_away_congr {net0 : Network} {lc : List Behavior}
    (h : List.Forall₂ ActEq lc net0.behaviors) {tk tk2 src src2 : Behavior}
    (ht : ActEq tk tk2) (hs : ActEq src src2) (s : State) :
    Network.take_away { net0 with behaviors := lc } tk src s =
      net0.take_away tk2 src2 s := by
  rw [Network.take_away, Network.take_away,
    ht.2.2.2.2.2.1, ht.2.2.2.2.1, ht.2.2.1, hs.2.2.2.2.2.1, hs.2.2.1, hs.2.2.2.2.1]
  dsimp only
  by_cases hcond : tk2.previous_activation < src2.previous_activation ∧
      0 < (s.data ∩ src2.preconditions ∩ tk2.deletions).card
  · rw [if_pos hcond, if_pos hcond]
  · rw [if_neg hcond, if_neg hcond]
    congr 1
    apply Finset.sum_congr rfl
    intro item _
    rw [that_delete_length_congr h item]

/-- `behavior_spread` never reads a `current_activation`. -/
theorem behavior_spread_at_congr {net0 : Network} {lc : List Behavior}
    (h : List.Forall₂ ActEq lc net0.behaviors) (i : ℕ) (s : State) :
    Network.behavior_spread_at { net0 with behaviors := lc } i s =
      net0.behavior_spread_at i s := by
  rw [Network.behavior_spread_at, Network.behavior_spread_at]
  dsimp only
  rw [h.length_eq]
  apply Finset.sum_congr rfl
  intro j _
  rw [spread_backwards_congr h (forall₂_actEq_getD h j) (forall₂_actEq_getD h i) s,
    spread_forward_congr h (forall₂_actEq_getD h j) (forall₂_actEq_getD h i) s,
    take_away_congr h (forall₂_actEq_getD h j) (forall₂_actEq_getD h i) s]

/-- The recomputed activation never reads a `current_activation`. -/
theorem new_activation_congr {net0 : Network} {lc : List Behavior}
    (h : List.Forall₂ ActEq lc net0.behaviors) (i : ℕ) (s : State) :
    Network.new_activation { net0 with behaviors := lc } i s =
      net0.new_activation i s := by
  rw [Network.new_activation, Network.new_activation]
  dsimp only
  rw [(forall₂_actEq_getD h i).2.2.2.2.2.1,
    input_from_data_congr h (forall₂_actEq_getD h i) s,
    input_from_goals_congr h (forall₂_actEq_getD h i) s,
    taken_by_protected_goals_congr h (forall₂_actEq_getD h i) s,
    behavior_spread_at_congr h i s]



/-- Writing back the value already present is the identity. -/
theorem set_getD_self : ∀ (l : List Behavior) (i : ℕ), l.set i (l.getD i default) = l
  | [], _ => rfl
  | _ :: _, 0 => rfl
  | b :: l, i + 1 => by
    rw [List.getD_cons_succ, List.set_cons_succ, set_getD_self l i]

/-- With a stable `executable` flag at the written index, one loop
iteration is exactly one activation write evaluated against the frozen
network. -/
theorem updateOne_char (s : State) (net0 : Network)
    (hstable : ∀ b ∈ net0.behaviors,
      b.executable = decide (b.preconditions ⊆ s.data ∪ s.protected_goals))
    {lc : List Behavior} (h : List.Forall₂ ActEq lc net0.behaviors) (i : ℕ) :
    Network.updateOne { net0 with behaviors := lc } s i =
      { net0 with behaviors := lc.set i (actWrite net0 s lc i) } := by
  rw [Network.updateOne]
  dsimp only
  by_cases hi : i < lc.length
  · have hbc := forall₂_actEq_getD h i
    have hmem : net0.behaviors.getD i default ∈ net0.behaviors := by
      have hi0 : i < net0.behaviors.length := by rw [← h.length_eq]; exact hi
      rw [getD_of_lt hi0]
      exact net0.behaviors.get_mem _ hi0
    have hflag : decide ((lc.getD i default).preconditions ⊆
        s.data ∪ s.protected_goals) = (lc.getD i default).executable := by
      rw [hbc.2.2.1, ← hstable _ hmem, hbc.2.2.2.2.2.2]
    rw [hflag, set_getD_self lc i, new_activation_congr h i s, actWrite]
  · have hle : lc.length ≤ i := le_of_not_lt hi
    rw [List.set_eq_of_length_le hle, List.set_eq_of_length_le hle,
      List.set_eq_of_length_le hle]

/-- The activation writes preserve the list length. -/
theorem applyActs_length (net0 : Network) (s : State) :
    ∀ (l : List ℕ) (lc : List Behavior), (applyActs net0 s lc l).length = lc.length := by
  intro l
  induction l with
  | nil => intro lc; rfl
  | cons i rest ih =>
    intro lc
    rw [applyActs, ih, List.length_set]

/-- With stable `executable` flags, the in-place loop equals the
accumulated activation writes evaluated against the frozen network. -/
theorem updateLoop_char (s : State) (net0 : Network)
    (hstable : ∀ b ∈ net0.behaviors,
      b.executable = decide (b.preconditions ⊆ s.data ∪ s.protected_goals)) :
    ∀ (l : List ℕ) (lc : List Behavior), List.Forall₂ ActEq lc net0.behaviors →
      updateLoop s { net0 with behaviors := lc } l =
        { net0 with behaviors := applyActs net0 s lc l } := by
  intro l
  induction l with
  | nil => intro lc _; rfl
  | cons i rest ih =>
    intro lc h
    rw [updateLoop, updateOne_char s net0 hstable h i, applyActs]
    exact ih _ (forall₂_actEq_set h (actEq_setCur (forall₂_actEq_getD h i) _))



/-- Entrywise description of the accumulated activation writes. -/
theorem applyActs_getD (net0 : Network) (s : State) :
    ∀ (l : List ℕ) (lc : List Behavior),
      (∀ j, ActEq (lc.getD j default) (net0.behaviors.getD j default)) →
      ∀ j, (applyActs net0 s lc l).getD j default =
        if j ∈ l ∧ j < lc.length then
          { lc.getD j default with current_activation := net0.new_activation j s }
        else lc.getD j default := by
  intro l
  induction l with
  | nil =>
    intro lc _ j
    rw [applyActs]
    simp
  | cons i rest ih =>
    intro lc hA j
    rw [applyActs]
    have hA2 : ∀ q, ActEq ((lc.set i (actWrite net0 s lc i)).getD q default)
        (net0.behaviors.getD q default) := by
      intro q
      by_cases hq : q = i
      · subst hq
        by_cases hlt : q < lc.length
        · rw [getD_set_self hlt]
          exact actEq_setCur (hA q) _
        · rw [List.set_eq_of_length_le (le_of_not_lt hlt)]
          exact hA q
      · rw [getD_set_ne (fun he => hq he.symm) _]
        exact hA q
    rw [ih _ hA2 j, List.length_set]
    by_cases hlt : j < lc.length
    · by_cases hjr : j ∈ rest
      · rw [if_pos ⟨hjr, hlt⟩, if_pos ⟨List.mem_cons.mpr (Or.inr hjr), hlt⟩]
        by_cases hji : j = i
        · subst hji
          rw [getD_set_self hlt]
          rfl
        · rw [getD_set_ne (fun he => hji he.symm) _]
      · by_cases hji : j = i
        · subst hji
          rw [if_neg (fun hc => hjr hc.1), if_pos ⟨List.mem_cons_self _ _, hlt⟩,
            getD_set_self hlt, actWrite]
        · rw [if_neg (fun hc => hjr hc.1), getD_set_ne (fun he => hji he.symm) _,
            if_neg (fun hc => by
              rcases List.mem_cons.mp hc.1 with h | h
              · exact hji h
              · exact hjr h)]
    · rw [if_neg (fun hc => hlt hc.2), if_neg (fun hc => hlt hc.2)]
      by_cases hji : j = i
      · subst hji
        rw [List.set_eq_of_length_le (le_of_not_lt hlt)]
      · rw [getD_set_ne (fun he => hji he.symm) _]

/-- `getD` past the end yields the fallback. -/
theorem getD_out_of_range {l : List Behavior} {j : ℕ} (h : l.length ≤ j) :
    l.getD j default = default := by
  rw [List.getD_eq_getElem?_getD, List.getElem?_eq_none h]
  rfl

/-- `getD` on a tabulated list. -/
theorem getD_map_range (f : ℕ → Behavior) (n j : ℕ) :
    ((List.range n).map f).getD j default = if j < n then f j else default := by
  rw [List.getD_eq_getElem?_getD, List.getElem?_map]
  by_cases h : j < n
  · rw [List.getElem?_range h, if_pos h]
    rfl
  · rw [List.getElem?_eq_none (by rw [List.length_range]; exact le_of_not_lt h), if_neg h]
    rfl

/-- Lists of equal length agreeing under `getD` are equal. -/
theorem list_ext_getD {l1 l2 : List Behavior} (hlen : l1.length = l2.length)
    (h : ∀ j, l1.getD j default = l2.getD j default) : l1 = l2 := by
  apply List.ext_getElem?
  intro n
  by_cases hn : n < l1.length
  · have hn2 : n < l2.length := by rw [← hlen]; exact hn
    rw [List.getElem?_eq_getElem hn, List.getElem?_eq_getElem hn2]
    have hh := h n
    rw [getD_of_lt hn, getD_of_lt hn2] at hh
    exact congrArg some hh
  · rw [List.getElem?_eq_none (le_of_not_lt hn),
      List.getElem?_eq_none (by rw [← hlen]; exact le_of_not_lt hn)]

/-- Recomputing already-correct `executable` flags is the identity. -/
theorem map_flag_eq_self (s : State) :
    ∀ l : List Behavior,
      (∀ b ∈ l, b.executable = decide (b.preconditions ⊆ s.data ∪ s.protected_goals)) →
      l.map (fun b =>
        { b with executable := decide (b.preconditions ⊆ s.data ∪ s.protected_goals) }) = l
  | [], _ => rfl
  | b :: l, h => by
    rw [List.map_cons, map_flag_eq_self s l (fun c hc => h c (List.mem_cons.mpr (Or.inr hc))),
      ← h b (List.mem_cons_self b l)]

/-- With stable flags, the two-pass reference reduces to tabulated
activation writes followed by `relax`. -/
theorem two_pass_of_stable (net : Network) (s : State)
    (hstable : ∀ b ∈ net.behaviors,
      b.executable = decide (b.preconditions ⊆ s.data ∪ s.protected_goals)) :
    two_pass_update net s =
      Network.relax { net with behaviors :=
        (List.range net.behaviors.length).map (fun i =>
          { net.behaviors.getD i default with
            current_activation := net.new_activation i s }) } := by
  rw [two_pass_update, map_flag_eq_self s net.behaviors hstable]



/-- C3 (amended): `update_behaviors(state)` coincides with the two-pass
reference — recompute every `executable`, then recompute every activation
from the frozen `previous_activation` snapshot — whenever every behavior's
`executable` flag already equals its recomputed value.  (Activations never
read another behavior's freshly written `current_activation`; the
counterexample shows they do read freshly written `executable` flags, so
the unconditional claim fails.) -/
theorem update_behaviors_eq_two_pass_of_stable_flags (net : Network) (s : State)
    (hstable : ∀ b ∈ net.behaviors,
      b.executable = decide (b.preconditions ⊆ s.data ∪ s.protected_goals)) :
    net.update_behaviors s = two_pass_update net s := by
  rw [two_pass_of_stable net s hstable, Network.update_behaviors]
  refine congrArg Network.relax ?_
  have h1 : updateLoop s { net with behaviors := net.behaviors }
      (List.range net.behaviors.length) =
      { net with behaviors :=
        applyActs net s net.behaviors (List.range net.behaviors.length) } :=
    updateLoop_char s net hstable _ _ (forall₂_actEq_refl _)
  have h2 : applyActs net s net.behaviors (List.range net.behaviors.length) =
      (List.range net.behaviors.length).map (fun i =>
        { net.behaviors.getD i default with
          current_activation := net.new_activation i s }) := by
    apply list_ext_getD
    · rw [applyActs_length, List.length_map, List.length_range]
    · intro j
      rw [applyActs_getD net s _ _ (fun q => actEq_refl _) j, getD_map_range]
      by_cases hj : j < net.behaviors.length
      · rw [if_pos ⟨List.mem_range.mpr hj, hj⟩, if_pos hj]
      · rw [if_neg (fun hc => hj hc.2), if_neg hj, getD_out_of_range (le_of_not_lt hj)]
  exact h1.trans (congrArg (fun lb => { net with behaviors := lb }) h2)

/-- Witness for the amended C3 at the concrete network `c4net`, whose only
behavior has an already-stable flag. -/
theorem update_behaviors_eq_two_pass_witness :
    c4net.update_behaviors c0s = two_pass_update c4net c0s :=
  update_behaviors_eq_two_pass_of_stable_flags c4net c0s (by
    intro b hb
    have hb2 : b = c4b := by simpa [c4net] using hb
    subst hb2
    rfl)

/-- First loop iteration on the counterexample network: behavior 0 stays
non-executable and receives `2/7` of forward spread from behavior 1, whose
stale `executable = false` flag is still in force. -/
theorem c3_update_step0 : c3net.updateOne c3s 0 =
    ⟨[⟨0, 0, {1}, ∅, ∅, 0, 2/7, false⟩, c3b2], 45, 45, Energy.default⟩ := by
  norm_num [Network.updateOne, Network.new_activation, Network.behavior_spread_at,
    Network.input_from_data, Network.input_from_goals, Network.taken_by_protected_goals,
    Network.spread_backwards, Network.spread_forward, Network.take_away,
    Network.behaviors_that_need, Network.behaviors_that_add, Network.behaviors_that_delete,
    c3net, c3b1, c3b2, c3s, Energy.default, List.filter,
    show (Finset.range 2).erase 0 = {1} from by decide,
    Finset.sum_singleton, Finset.sum_empty]

/-- Second loop iteration: behavior 1 becomes executable and receives
`0.9 · 1 + 20` of energy. -/
theorem c3_update_step1 :
    (⟨[⟨0, 0, {1}, ∅, ∅, 0, 2/7, false⟩, c3b2], 45, 45, Energy.default⟩ : Network).updateOne
        c3s 1 =
    ⟨[⟨0, 0, {1}, ∅, ∅, 0, 2/7, false⟩, ⟨1, 1, {0}, {1}, ∅, 1, 209/10, true⟩], 45, 45,
      Energy.default⟩ := by
  norm_num [Network.updateOne, Network.new_activation, Network.behavior_spread_at,
    Network.input_from_data, Network.input_from_goals, Network.taken_by_protected_goals,
    Network.spread_backwards, Network.spread_forward, Network.take_away,
    Network.behaviors_that_need, Network.behaviors_that_add, Network.behaviors_that_delete,
    c3b2, c3s, Energy.default, List.filter,
    show (Finset.range 2).erase 1 = {0} from by decide,
    Finset.sum_singleton, Finset.sum_empty]

/-- The counterexample cycle ends below the mean, so `relax` is the
identity on it. -/
theorem c3_update_relax :
    (⟨[⟨0, 0, {1}, ∅, ∅, 0, 2/7, false⟩, ⟨1, 1, {0}, {1}, ∅, 1, 209/10, true⟩], 45, 45,
      Energy.default⟩ : Network).relax =
    ⟨[⟨0, 0, {1}, ∅, ∅, 0, 2/7, false⟩, ⟨1, 1, {0}, {1}, ∅, 1, 209/10, true⟩], 45, 45,
      Energy.default⟩ := by
  norm_num [Network.relax, Network.mean_activation, Energy.default]

/-- `update_behaviors` on the counterexample network: behavior 0 ends at
`2/7`. -/
theorem c3_update_total :
    c3net.update_behaviors c3s =
    ⟨[⟨0, 0, {1}, ∅, ∅, 0, 2/7, false⟩, ⟨1, 1, {0}, {1}, ∅, 1, 209/10, true⟩], 45, 45,
      Energy.default⟩ := by
  rw [Network.update_behaviors,
    show List.range c3net.behaviors.length = [0, 1] from by decide,
    updateLoop, c3_update_step0, updateLoop, c3_update_step1, updateLoop, c3_update_relax]

/-- The two-pass reference on the counterexample network: behavior 1's
fresh `executable = true` suppresses the forward spread, so behavior 0 ends
at `0`. -/
theorem c3_two_pass_total :
    two_pass_update c3net c3s =
    ⟨[⟨0, 0, {1}, ∅, ∅, 0, 0, false⟩, ⟨1, 1, {0}, {1}, ∅, 1, 209/10, true⟩], 45, 45,
      Energy.default⟩ := by
  rw [two_pass_update]
  norm_num [Network.relax, Network.mean_activation, Network.new_activation,
    Network.behavior_spread_at, Network.input_from_data, Network.input_from_goals,
    Network.taken_by_protected_goals, Network.spread_backwards, Network.spread_forward,
    Network.take_away, Network.behaviors_that_need, Network.behaviors_that_add,
    Network.behaviors_that_delete, c3net, c3b1, c3b2, c3s, Energy.default, List.filter,
    show (Finset.range 2).erase 0 = {1} from by decide,
    show (Finset.range 2).erase 1 = {0} from by decide,
    List.range_succ, Finset.sum_singleton, Finset.sum_empty]

/-- C3 (counterexample): on `c3net` with state `{0}`, the code's in-place
`update_behaviors` gives behavior 0 the activation `2/7` (it reads behavior
1's stale `executable = false`), while the two-pass reference gives `0` —
the claimed equivalence fails. -/
theorem update_behaviors_interleaves_executable_cex :
    ((c3net.update_behaviors c3s).behaviors.getD 0 default).current_activation ≠
      ((two_pass_update c3net c3s).behaviors.getD 0 default).current_activation := by
  rw [c3_update_total, c3_two_pass_total]
  norm_num

end Cogbox
